import Mathlib

/-!
Verification of the truffle-ai backend ingestion pipeline.

This file gives a shallow embedding of the TypeScript sources
(dbUpdater.ts, dataAggregation.ts, updateProject.ts, resolvers.ts,
bookmark.ts, the GitHub scraping and API modules, and the Octokit
wrapper) and proves properties of the embedded definitions.

Modelling conventions:
- Async network calls are passed in as oracle functions (an HTTP fetch
  is a function from a URL to an optional body, the GitHub GraphQL API
  is a record of lookup functions, and so on).
- JavaScript `undefined` is modelled as `Option.none`; template-literal
  interpolation of `undefined` produces the string "undefined".
- The supabase tables are modelled as lists of rows restricted to the
  columns that the translated functions actually read or write.
- A supabase `.eq(column, v)` filter with an `undefined` argument
  matches no row.
-/

namespace TruffleAI

/-- Truthiness of a JavaScript string-or-undefined value: `undefined`
and the empty string are falsy, every other string is truthy. -/
def jsTruthy : Option String → Bool
  | none => false
  | some s => s ≠ ""

/-- Strict equality `===` between two JavaScript string-or-undefined
values: `undefined === undefined` is true, `undefined === s` is false,
and two strings compare by value. -/
def jsEq : Option String → Option String → Bool
  | none, none => true
  | some a, some b => a == b
  | _, _ => false

/-- Template-literal interpolation of a string-or-undefined value:
`undefined` prints as the string "undefined". -/
def jsStr : Option String → String
  | none => "undefined"
  | some s => s

/-- Indexing a JavaScript array of string-or-undefined values: out of
bounds reads give `undefined`. -/
def jsIdx (l : List (Option String)) (i : Nat) : Option String :=
  (l.get? i).join

/-! ## Octokit wrapper (src/unnamed/part_001, class GithubApi)

`fetchRepositoryStargazersByTotalCount` maps over `Array(amountOfPages)`.
`Array(n)` is a sparse JavaScript array of `n` holes; `map` skips holes
and leaves them as holes; `Promise.all` iterates the array, turning each
hole into the value `undefined`; `flat()` splices array elements, keeps
non-array values such as `undefined`, and drops holes.  A cell of such
an array is a hole, the value `undefined`, or a proper value. -/

inductive JsCell (α : Type) where
  | hole : JsCell α
  | undef : JsCell α
  | val : α → JsCell α
deriving DecidableEq

/-- Sparse array produced by the JavaScript constructor `Array(n)`:
`n` holes. -/
def jsSparseArray (α : Type) (n : Nat) : List (JsCell α) :=
  List.replicate n JsCell.hole

/-- Record of the star history as built by the Octokit wrapper. -/
structure StarRecord where
  date : String
  count : Nat
deriving DecidableEq

/-- Stargazer entry of the Octokit `listStargazersForRepo` response:
`starred_at` may be absent. -/
structure Stargazer where
  starred_at : Option String
deriving DecidableEq

/-- Lookup in the JavaScript object used as a string-keyed map. -/
def jsObjGet (m : List (String × Nat)) (k : String) : Option Nat :=
  (m.find? (fun e => e.1 == k)).map (·.2)

/-- Assignment in the JavaScript object used as a string-keyed map:
updating an existing key keeps its insertion position, a new key is
appended. -/
def jsObjSet (m : List (String × Nat)) (k : String) (v : Nat) : List (String × Nat) :=
  if (m.find? (fun e => e.1 == k)).isSome then
    m.map (fun e => if e.1 == k then (k, v) else e)
  else
    m ++ [(k, v)]

/-- Body of the `forEach` over the stargazer response: the source
increments an existing count but then unconditionally overwrites the
entry with 1 (the assignment is not in an else branch). -/
def byDateStep (m : List (String × Nat)) (g : Stargazer) : List (String × Nat) :=
  match g.starred_at with
  | none => m
  | some d =>
      let m1 :=
        if (jsObjGet m d).isSome then jsObjSet m d ((jsObjGet m d).getD 0 + 1) else m
      jsObjSet m1 d 1

/-- Callback of the `map` over `Array(amountOfPages)`: its array-element
argument is ignored (named `_` in the source), only the index is used. -/
def stargazerPage (fetchPage : Nat → List Stargazer) (steps : Nat) (pageNumber : Nat) :
    List StarRecord :=
  let byDate := (fetchPage ((pageNumber + 1) * steps)).foldl byDateStep []
  byDate.map (fun e => { date := e.1, count := e.2 })

/-- JavaScript `map` over a possibly sparse array: holes are skipped and
stay holes, the callback (which only uses the index) is applied to the
other cells. -/
def jsMapCells (f : Nat → List StarRecord) :
    List (JsCell (List StarRecord)) → Nat → List (JsCell (List StarRecord))
  | [], _ => []
  | JsCell.hole :: rest, i => JsCell.hole :: jsMapCells f rest (i + 1)
  | _ :: rest, i => JsCell.val (f i) :: jsMapCells f rest (i + 1)

/-- `Promise.all` over a possibly sparse array: iteration turns each
hole into the value `undefined`; other cells keep their value. -/
def promiseAllCells : List (JsCell (List StarRecord)) → List (JsCell (List StarRecord)) :=
  List.map (fun c =>
    match c with
    | JsCell.hole => JsCell.undef
    | c => c)

/-- JavaScript `flat()`: array values are spliced, the value `undefined`
is kept as an element, holes are dropped. -/
def jsFlatCells : List (JsCell (List StarRecord)) → List (Option StarRecord)
  | [] => []
  | JsCell.hole :: rest => jsFlatCells rest
  | JsCell.undef :: rest => none :: jsFlatCells rest
  | JsCell.val l :: rest => l.map some ++ jsFlatCells rest

/-- GithubApi.fetchRepositoryStargazersByTotalCount, translated from the
Octokit wrapper.  `fetchPage` stands for the Octokit stargazer request
for a given page number.  With `amountOfPages = 0` the sparse array is
empty; the JavaScript division `stargazersTotalCount / amountOfPages`
is modelled by Nat division, which only matters inside the callback. -/
def fetchRepositoryStargazersByTotalCount (_repositoryOwner _repositoryName : String)
    (stargazersTotalCount amountOfPages : Nat) (fetchPage : Nat → List Stargazer) :
    List (Option StarRecord) :=
  let steps := stargazersTotalCount / amountOfPages
  jsFlatCells (promiseAllCells
    (jsMapCells (stargazerPage fetchPage steps) (jsSparseArray _ amountOfPages) 0))

/-! ## Results about the stargazer fetcher (claim C8) -/

lemma jsMapCells_replicate_hole (f : Nat → List StarRecord) :
    ∀ (n i : Nat), jsMapCells f (List.replicate n JsCell.hole) i =
      List.replicate n JsCell.hole
  | 0, _ => rfl
  | n + 1, i => by
      simp only [List.replicate, jsMapCells]
      exact congrArg _ (jsMapCells_replicate_hole f n (i + 1))

lemma promiseAllCells_replicate_hole :
    ∀ n, promiseAllCells (List.replicate n JsCell.hole) =
      List.replicate n JsCell.undef
  | 0 => rfl
  | n + 1 => by
      simp only [List.replicate, promiseAllCells, List.map]
      exact congrArg _ (promiseAllCells_replicate_hole n)

lemma jsFlatCells_replicate_undef :
    ∀ n, jsFlatCells (List.replicate n JsCell.undef) = List.replicate n none
  | 0 => rfl
  | n + 1 => by
      simp only [List.replicate, jsFlatCells]
      exact congrArg _ (jsFlatCells_replicate_undef n)

/-- C8 counterexample: at owner "o", name "n", 100 stargazers and one
page, the fetcher does not return the empty list (it returns a
one-element list holding `undefined`). -/
theorem fetchStargazers_not_nil :
    fetchRepositoryStargazersByTotalCount "o" "n" 100 1 (fun _ => []) ≠
      ([] : List (Option StarRecord)) := by
  decide

/-- C8 (amended): for every owner, name, total count, page count and
page fetcher, fetchRepositoryStargazersByTotalCount returns the list of
`amountOfPages` copies of `undefined`: the map callback never runs on
the all-holes array, Promise.all turns each hole into `undefined`, and
flat keeps those, so the result contains no star-history record. -/
theorem fetchStargazers_replicate_undef (owner name : String)
    (total pages : Nat) (fetchPage : Nat → List Stargazer) :
    fetchRepositoryStargazersByTotalCount owner name total pages fetchPage =
      List.replicate pages none := by
  show jsFlatCells (promiseAllCells
      (jsMapCells (stargazerPage fetchPage (total / pages))
        (List.replicate pages JsCell.hole) 0)) = List.replicate pages none
  rw [jsMapCells_replicate_hole, promiseAllCells_replicate_hole,
    jsFlatCells_replicate_undef]

/-! ## Datastore model

Rows keep exactly the columns that the translated functions read or
write: project(id, name, owning_organization, owning_person, the three
trending flags, is_bookmarked, eli5), organization(id, login) and
associated_person(id, login).  Freshly generated row ids are modelled
with a `nextId` counter; generated ids are decimal strings and hence
never empty. -/

structure OrgRow where
  id : String
  login : String
deriving DecidableEq

structure PersonRow where
  id : String
  login : String
deriving DecidableEq

structure ProjectRow where
  id : String
  name : String
  owning_organization : Option String
  owning_person : Option String
  is_trending_daily : Bool
  is_trending_weekly : Bool
  is_trending_monthly : Bool
  is_bookmarked : Bool
  eli5 : Option String
deriving DecidableEq

structure DB where
  projects : List ProjectRow
  organizations : List OrgRow
  persons : List PersonRow
  nextId : Nat
deriving DecidableEq

/-- TrendingState value of types/processRepo: one of the three trending
columns of the project table. -/
inductive TrendingFlag where
  | daily
  | weekly
  | monthly
deriving DecidableEq

/-- Value of a given trending column of a project row. -/
def flagGet : TrendingFlag → ProjectRow → Bool
  | TrendingFlag.daily, r => r.is_trending_daily
  | TrendingFlag.weekly, r => r.is_trending_weekly
  | TrendingFlag.monthly, r => r.is_trending_monthly

/-- Partial update `projectUpdate[trendingState] = true` applied to a
project row: sets the named trending column, touches nothing else. -/
def setFlagTrue : TrendingFlag → ProjectRow → ProjectRow
  | TrendingFlag.daily, r => { r with is_trending_daily := true }
  | TrendingFlag.weekly, r => { r with is_trending_weekly := true }
  | TrendingFlag.monthly, r => { r with is_trending_monthly := true }

/-! ## repoIsAlreadyInDB (dbUpdater.ts, lines 111-150) -/

/-- Owner-login resolution performed inside the loop of
repoIsAlreadyInDB: when `repo.owning_organization` is truthy the first
organization row with that id is consulted, otherwise the first
associated_person row whose id equals `repo.owning_person`; the result
is that row's login, or `undefined` when the lookup finds no row. -/
def jsLinkedLogin (orgs : List OrgRow) (persons : List PersonRow) (r : ProjectRow) :
    Option String :=
  if jsTruthy r.owning_organization then
    ((orgs.filter (fun g => some g.id == r.owning_organization)).head?).map (·.login)
  else
    ((persons.filter (fun p => some p.id == r.owning_person)).head?).map (·.login)

/-- repoIsAlreadyInDB translated from dbUpdater.ts: select the project
rows with the given name, and return true as soon as one of them
resolves to an owner whose login strictly equals the given owner.  The
early-return loop over the matching rows is the `any` below.  The
`!matchingRepos` error guard of the source is the no-error case here. -/
def repoIsAlreadyInDB (db : DB) (name owner : Option String) : Bool :=
  (db.projects.filter (fun r => some r.name == name)).any
    (fun r => jsEq (jsLinkedLogin db.organizations db.persons r) owner)

/-- Matching condition of a single project row against a (name, owner)
pair, combining the name filter and the owner-login comparison of
repoIsAlreadyInDB. -/
def rowMatchesOwner (orgs : List OrgRow) (persons : List PersonRow)
    (r : ProjectRow) (name owner : Option String) : Bool :=
  (some r.name == name) && jsEq (jsLinkedLogin orgs persons r) owner

lemma repoIsAlreadyInDB_eq_any (db : DB) (name owner : Option String) :
    repoIsAlreadyInDB db name owner =
      db.projects.any (fun r => rowMatchesOwner db.organizations db.persons r name owner) := by
  unfold repoIsAlreadyInDB rowMatchesOwner
  induction db.projects with
  | nil => rfl
  | cons r rest ih =>
      by_cases h : (some r.name == name) = true
      · simp [List.filter, List.any, h, ih]
      · simp only [Bool.not_eq_true] at h
        simp [List.filter, List.any, h, ih]

/-! ## updateSupabaseProject and updateProjectTrendingState -/

/-- Modelled from the spec: updateSupabaseProject (supabaseUtils.ts, a
file of this repository that is not under src/) applies a partial
update to the project rows matching the given name and owner — the
aggregation pipeline "inserts new rows or updates existing ones" — and
reports whether some row was updated.  Row matching follows the
in-repo matching of repoIsAlreadyInDB. -/
def updateSupabaseProject (db : DB) (name owner : Option String)
    (upd : ProjectRow → ProjectRow) : Bool × DB :=
  (db.projects.any (fun r => rowMatchesOwner db.organizations db.persons r name owner),
    { db with projects := db.projects.map (fun r =>
        if rowMatchesOwner db.organizations db.persons r name owner then upd r else r) })

/-- updateProjectTrendingState translated from updateProject.ts, lines
223-236: return unchanged when the trendingState is falsy or the repo
is not in the database, otherwise apply the one-field partial update
`projectUpdate[trendingState] = true` through updateSupabaseProject. -/
def updateProjectTrendingState (db : DB) (name owner : Option String)
    (trendingState : Option TrendingFlag) : DB :=
  match trendingState with
  | none => db
  | some f =>
      if !repoIsAlreadyInDB db name owner then db
      else (updateSupabaseProject db name owner (setFlagTrue f)).2

/-! ## dbUpdater.ts pipeline -/

/-- Modelled from the spec: insertProject (processRepo.ts, a file of
this repository that is not under src/) "inserts new rows" for a
repository that is not yet in the datastore: a fresh project row named
after the repo, linked to the existing organization or person whose
login is the owner (organization first), with no trending flag set and
not bookmarked.  With an undefined name or owner nothing is inserted.
The fresh row is built by newProjectRow. -/
def newProjectRow (db : DB) (n o : String) : ProjectRow :=
  let orgId := ((db.organizations.filter (fun g => g.login == o)).head?).map (·.id)
  let personId := ((db.persons.filter (fun p => p.login == o)).head?).map (·.id)
  { id := toString db.nextId
    name := n
    owning_organization := orgId
    owning_person := if orgId.isSome then none else personId
    is_trending_daily := false
    is_trending_weekly := false
    is_trending_monthly := false
    is_bookmarked := false
    eli5 := none }

def insertProject (db : DB) (name owner : Option String) : DB :=
  match name, owner with
  | some n, some o =>
      { db with projects := db.projects ++ [newProjectRow db n o],
                nextId := db.nextId + 1 }
  | _, _ => db

/-- purgeTrendingState translated from dbUpdater.ts: an update of the
project table with no filter sets the three trending flags to false on
every row. -/
def purgeTrendingState (db : DB) : DB :=
  { db with projects := db.projects.map (fun r =>
      { r with is_trending_daily := false, is_trending_weekly := false,
               is_trending_monthly := false }) }

/-- Call made by one iteration of the loop of goThroughListOfRepos,
together with the datastore state at the moment of the call. -/
inductive PipeAction where
  | insertCall (pre : DB) (name owner : Option String)
  | updateCall (pre : DB) (name owner : Option String) (f : TrendingFlag)
deriving DecidableEq

/-- Body of one iteration of goThroughListOfRepos: when the repo is
already in the database only its trending state is updated, otherwise
it is inserted.  The second component records the call that was made. -/
def processPair (db : DB) (owner name : Option String) (f : TrendingFlag) :
    DB × List PipeAction :=
  if repoIsAlreadyInDB db name owner then
    (updateProjectTrendingState db name owner (some f),
      [PipeAction.updateCall db name owner f])
  else
    (insertProject db name owner, [PipeAction.insertCall db name owner])

/-- goThroughListOfRepos translated from dbUpdater.ts, lines 90-103.
The source loop is `for (let i = 0; i < 2; i++)`: the bound is the
constant 2, so exactly the index pairs (0,1) and (2,3) are read; the
loop is unrolled accordingly. -/
def goThroughListOfRepos (db : DB) (repos : List (Option String)) (f : TrendingFlag) :
    DB × List PipeAction :=
  let r1 := processPair db (jsIdx repos 0) (jsIdx repos 1) f
  let r2 := processPair r1.1 (jsIdx repos 2) (jsIdx repos 3) f
  (r2.1, r1.2 ++ r2.2)

/-- dbUpdater translated from dbUpdater.ts, lines 9-55.  The three
trending lists stand for the awaited results of fetchTrendingRepos.
The wall-clock cutoff `created_at < getCutOffTime(96, 0)` of the
old-project deletion is abstracted by the predicate `isOld`.  The
final block (selecting old repos, organizations and persons and
calling updateRepo on them) has no datastore effect because updateRepo
is a stub returning null.  The old-project deletion — delete the rows
that are not bookmarked and are older than the cutoff — is
deleteOldProjects. -/
def deleteOldProjects (db : DB) (isOld : ProjectRow → Bool) : DB :=
  { db with projects := db.projects.filter (fun r =>
      !((r.is_bookmarked == false) && isOld r)) }

def dbUpdater (db0 : DB) (daily weekly monthly : List (Option String))
    (isOld : ProjectRow → Bool) : DB :=
  deleteOldProjects
    ((goThroughListOfRepos
      ((goThroughListOfRepos
        ((goThroughListOfRepos (purgeTrendingState db0) daily TrendingFlag.daily).1)
        weekly TrendingFlag.weekly).1)
      monthly TrendingFlag.monthly).1)
    isOld

/-! ## Claims C1 and C2 about the ingestion loop -/

/-- C1: the trending scraper hands goThroughListOfRepos a flat list of
(owner, repository) pairs; with three pairs and an empty datastore the
loop, whose bound is the constant 2, performs only two calls, inserts
only the first two repositories, and never touches the third pair —
contradicting the claim (and the function's own documentation) that
every pair on the list is processed. -/
theorem goThroughListOfRepos_skips_third_pair :
    ((goThroughListOfRepos ⟨[], [], [], 0⟩
        [some "o1", some "r1", some "o2", some "r2", some "o3", some "r3"]
        TrendingFlag.daily).2.length = 2) ∧
    ((goThroughListOfRepos ⟨[], [], [], 0⟩
        [some "o1", some "r1", some "o2", some "r2", some "o3", some "r3"]
        TrendingFlag.daily).1.projects.map (fun r => r.name) = ["r1", "r2"]) ∧
    ((goThroughListOfRepos ⟨[], [], [], 0⟩
        [some "o1", some "r1", some "o2", some "r2", some "o3", some "r3"]
        TrendingFlag.daily).1.projects.all (fun r => !(r.name == "r3")) = true) := by
  refine ⟨rfl, rfl, rfl⟩

/-- Owner login of a project row as the specification words it: the
login of the linked organization when owning_organization is set,
otherwise the login of the linked associated person. -/
def ownerLoginSpec (orgs : List OrgRow) (persons : List PersonRow) (r : ProjectRow) :
    Option String :=
  match r.owning_organization with
  | some oid => ((orgs.filter (fun g => g.id == oid)).head?).map (·.login)
  | none => ((persons.filter (fun p => some p.id == r.owning_person)).head?).map (·.login)

lemma bool_eq_of_iff {a b : Bool} (h : a = true ↔ b = true) : a = b := by
  cases a <;> cases b <;> simp_all

lemma any_congr_mem {α : Type} (l : List α) (p q : α → Bool)
    (h : ∀ a ∈ l, p a = q a) : l.any p = l.any q := by
  induction l with
  | nil => rfl
  | cons a rest ih =>
      simp only [List.any]
      rw [h a (by simp), ih (fun b hb => h b (by simp [hb]))]

lemma jsEq_some (x : Option String) (o : String) : jsEq x (some o) = (x == some o) := by
  cases x <;> rfl

lemma jsLinkedLogin_eq_spec (orgs : List OrgRow) (persons : List PersonRow)
    (r : ProjectRow) (h : r.owning_organization ≠ some "") :
    jsLinkedLogin orgs persons r = ownerLoginSpec orgs persons r := by
  unfold jsLinkedLogin ownerLoginSpec jsTruthy
  cases ho : r.owning_organization with
  | none => simp
  | some s =>
      have hs : s ≠ "" := by
        intro e
        exact h (by rw [ho, e])
      simp [hs, ho]

/-- Predicate on a recorded pipeline call: an insertProject call is
admissible only if repoIsAlreadyInDB had just returned false on the
datastore state of the call. -/
def insertOnlyWhenAbsent : PipeAction → Bool
  | PipeAction.insertCall pre name owner => !repoIsAlreadyInDB pre name owner
  | PipeAction.updateCall _ _ _ _ => true

/-- C2: the ingestion loop calls insertProject for a pair only when
repoIsAlreadyInDB has just returned false on that pair, and — on a
datastore whose project rows never carry the empty string as an
organization id — repoIsAlreadyInDB returns true exactly when some
project row with the given name resolves (organization when set,
otherwise associated person) to an owner whose login equals the given
owner. -/
theorem insertProject_guarded_by_repoIsAlreadyInDB (db : DB)
    (repos : List (Option String)) (f : TrendingFlag) (n o : String)
    (hwf : db.projects.all (fun r => !(r.owning_organization == some "")) = true) :
    ((goThroughListOfRepos db repos f).2.all insertOnlyWhenAbsent = true) ∧
    (repoIsAlreadyInDB db (some n) (some o) =
      db.projects.any (fun r =>
        (r.name == n) && (ownerLoginSpec db.organizations db.persons r == some o))) := by
  constructor
  · have key : ∀ (db' : DB) (ow nm : Option String),
        (processPair db' ow nm f).2.all insertOnlyWhenAbsent = true := by
      intro db' ow nm
      unfold processPair
      by_cases h : repoIsAlreadyInDB db' nm ow
      · simp [h, insertOnlyWhenAbsent]
      · simp [h, insertOnlyWhenAbsent]
    unfold goThroughListOfRepos
    rw [List.all_append]
    rw [key, key]
    rfl
  · rw [repoIsAlreadyInDB_eq_any]
    apply any_congr_mem
    intro r hr
    have hne : r.owning_organization ≠ some "" := by
      have := List.all_eq_true.mp hwf r hr
      simpa using this
    unfold rowMatchesOwner
    rw [jsEq_some, jsLinkedLogin_eq_spec db.organizations db.persons r hne]
    rfl

/-- Concrete datastore used by the C2 witness: one organization and one
project owned by it. -/
def dbC2 : DB :=
  { projects := [{ id := "p1", name := "repo", owning_organization := some "g1",
                   owning_person := none, is_trending_daily := false,
                   is_trending_weekly := false, is_trending_monthly := false,
                   is_bookmarked := false, eli5 := none }]
    organizations := [{ id := "g1", login := "acme" }]
    persons := []
    nextId := 0 }

/-- C2 witness: the theorem applied to the concrete datastore dbC2 and
a two-pair trending list. -/
theorem insertProject_guarded_witness :
    ((goThroughListOfRepos dbC2 [some "acme", some "repo", some "o2", some "r2"]
        TrendingFlag.daily).2.all insertOnlyWhenAbsent = true) ∧
    (repoIsAlreadyInDB dbC2 (some "repo") (some "acme") =
      dbC2.projects.any (fun r =>
        (r.name == "repo") && (ownerLoginSpec dbC2.organizations dbC2.persons r == some "acme"))) :=
  insertProject_guarded_by_repoIsAlreadyInDB dbC2
    [some "acme", some "repo", some "o2", some "r2"] TrendingFlag.daily
    "repo" "acme" (by decide)

/-! ## Claim C7: updateProjectTrendingState is a one-field update -/

/-- C7: on a datastore containing the repository and a non-falsy
trendingState, updateProjectTrendingState rewrites exactly the rows
that resolve to the given (name, owner) by setting the named trending
flag to true — every other field of every row, and the other tables,
are untouched, as the accompanying conjuncts about setFlagTrue spell
out — while a falsy trendingState or an absent repository leaves the
datastore unchanged. -/
theorem updateProjectTrendingState_exact (db : DB) (name owner : Option String)
    (f : TrendingFlag) :
    (repoIsAlreadyInDB db name owner = true →
      updateProjectTrendingState db name owner (some f) =
        { db with projects := db.projects.map (fun r =>
            if rowMatchesOwner db.organizations db.persons r name owner
            then setFlagTrue f r else r) }) ∧
    (updateProjectTrendingState db name owner none = db) ∧
    (repoIsAlreadyInDB db name owner = false →
      ∀ ts : Option TrendingFlag, updateProjectTrendingState db name owner ts = db) ∧
    (repoIsAlreadyInDB db name owner =
      db.projects.any (fun r => rowMatchesOwner db.organizations db.persons r name owner)) ∧
    (∀ g r, g ≠ f → flagGet g (setFlagTrue f r) = flagGet g r) ∧
    (∀ r, flagGet f (setFlagTrue f r) = true) ∧
    (∀ r, (setFlagTrue f r).id = r.id ∧ (setFlagTrue f r).name = r.name ∧
      (setFlagTrue f r).owning_organization = r.owning_organization ∧
      (setFlagTrue f r).owning_person = r.owning_person ∧
      (setFlagTrue f r).is_bookmarked = r.is_bookmarked ∧
      (setFlagTrue f r).eli5 = r.eli5) := by
  refine ⟨?_, rfl, ?_, repoIsAlreadyInDB_eq_any db name owner, ?_, ?_, ?_⟩
  · intro h
    unfold updateProjectTrendingState updateSupabaseProject
    rw [h]
    rfl
  · intro h ts
    cases ts with
    | none => rfl
    | some g =>
        unfold updateProjectTrendingState
        rw [h]
        rfl
  · intro g r hgf
    cases f <;> cases g <;> simp_all [flagGet, setFlagTrue]
  · intro r
    cases f <;> rfl
  · intro r
    cases f <;> exact ⟨rfl, rfl, rfl, rfl, rfl, rfl⟩

/-- C7 witness: the theorem applied to the concrete datastore dbC2,
once on its repository (the update happens) and once on a repository
that is not in the datastore (nothing changes). -/
theorem updateProjectTrendingState_exact_witness :
    (updateProjectTrendingState dbC2 (some "repo") (some "acme") (some TrendingFlag.daily) =
      { dbC2 with projects := dbC2.projects.map (fun r =>
          if rowMatchesOwner dbC2.organizations dbC2.persons r (some "repo") (some "acme")
          then setFlagTrue TrendingFlag.daily r else r) }) ∧
    (updateProjectTrendingState dbC2 (some "ghost") (some "acme")
      (some TrendingFlag.daily) = dbC2) :=
  ⟨(updateProjectTrendingState_exact dbC2 (some "repo") (some "acme")
      TrendingFlag.daily).1 (by decide),
   (updateProjectTrendingState_exact dbC2 (some "ghost") (some "acme")
      TrendingFlag.daily).2.2.1 (by decide) (some TrendingFlag.daily)⟩

/-! ## Claim C6: trending flags are purged before the lists are walked -/

/-- Identity of a project row up to its flag columns: same name and
same owner references. -/
def sameNR (r r' : ProjectRow) : Prop :=
  r.name = r'.name ∧ r.owning_organization = r'.owning_organization ∧
    r.owning_person = r'.owning_person

lemma sameNR_refl (r : ProjectRow) : sameNR r r := ⟨rfl, rfl, rfl⟩

lemma sameNR_trans {a b c : ProjectRow} (h1 : sameNR a b) (h2 : sameNR b c) :
    sameNR a c :=
  ⟨h1.1.trans h2.1, h1.2.1.trans h2.2.1, h1.2.2.trans h2.2.2⟩

lemma jsLinkedLogin_congr (orgs : List OrgRow) (persons : List PersonRow)
    {r r' : ProjectRow} (h : sameNR r r') :
    jsLinkedLogin orgs persons r = jsLinkedLogin orgs persons r' := by
  unfold jsLinkedLogin
  rw [h.2.1, h.2.2]

/-- States that a project row matches one of the two pairs of a
trending list that the loop of goThroughListOfRepos reads. -/
def processedFrom (repos : List (Option String)) (orgs : List OrgRow)
    (persons : List PersonRow) (r : ProjectRow) : Bool :=
  [0, 1].any (fun i =>
    (jsIdx repos (2 * i + 1) == some r.name) &&
      jsEq (jsLinkedLogin orgs persons r) (jsIdx repos (2 * i)))

lemma processedFrom_congr (repos : List (Option String)) (orgs : List OrgRow)
    (persons : List PersonRow) {r r' : ProjectRow} (h : sameNR r r') :
    processedFrom repos orgs persons r = processedFrom repos orgs persons r' := by
  unfold processedFrom
  rw [h.1, jsLinkedLogin_congr orgs persons h]

lemma setFlagTrue_sameNR (f : TrendingFlag) (r : ProjectRow) :
    sameNR r (setFlagTrue f r) := by
  cases f <;> exact ⟨rfl, rfl, rfl⟩

lemma flagGet_setFlagTrue_ne {f g : TrendingFlag} (r : ProjectRow) (h : g ≠ f) :
    flagGet g (setFlagTrue f r) = flagGet g r := by
  cases f <;> cases g <;> simp_all [flagGet, setFlagTrue]

/-- Provenance of the flags of a row after one loop iteration: a flag
other than the one being set was inherited from a row of the previous
state with the same name and owner references, and the flag being set
is either inherited or justified by a match against the pair that the
iteration handled. -/
lemma processPair_flags (db : DB) (ow nm : Option String) (f : TrendingFlag) :
    (processPair db ow nm f).1.organizations = db.organizations ∧
    (processPair db ow nm f).1.persons = db.persons ∧
    ∀ r' ∈ (processPair db ow nm f).1.projects,
      (∀ g, g ≠ f → flagGet g r' = true →
        ∃ r ∈ db.projects, sameNR r r' ∧ flagGet g r = true) ∧
      (flagGet f r' = true →
        (∃ r ∈ db.projects, sameNR r r' ∧ flagGet f r = true) ∨
        ((nm == some r'.name) &&
          jsEq (jsLinkedLogin db.organizations db.persons r') ow) = true) := by
  unfold processPair
  by_cases h : repoIsAlreadyInDB db nm ow
  · simp only [h, if_true]
    unfold updateProjectTrendingState
    rw [h]
    simp only [Bool.not_true, Bool.false_eq_true, if_false]
    unfold updateSupabaseProject
    refine ⟨rfl, rfl, ?_⟩
    intro r' hr'
    simp only [List.mem_map] at hr'
    obtain ⟨r, hr, heq⟩ := hr'
    by_cases hc : rowMatchesOwner db.organizations db.persons r nm ow
    · rw [if_pos hc] at heq
      subst heq
      have hnr : sameNR r (setFlagTrue f r) := setFlagTrue_sameNR f r
      constructor
      · intro g hg hflag
        rw [flagGet_setFlagTrue_ne r hg] at hflag
        exact ⟨r, hr, hnr, hflag⟩
      · intro _
        right
        unfold rowMatchesOwner at hc
        simp only [Bool.and_eq_true] at hc
        obtain ⟨h1, h2⟩ := hc
        have hname : (setFlagTrue f r).name = r.name := hnr.1.symm
        have hlink : jsLinkedLogin db.organizations db.persons (setFlagTrue f r) =
            jsLinkedLogin db.organizations db.persons r :=
          (jsLinkedLogin_congr db.organizations db.persons hnr).symm
        rw [hname, hlink, h2]
        have : (nm == some r.name) = true := by
          have := (beq_iff_eq (a := some r.name) (b := nm)).mp h1
          exact (beq_iff_eq (a := nm) (b := some r.name)).mpr this.symm
        rw [this]
        rfl
    · rw [if_neg hc] at heq
      subst heq
      clear hc
      exact ⟨fun g _ hflag => ⟨r, hr, sameNR_refl r, hflag⟩,
        fun hflag => Or.inl ⟨r, hr, sameNR_refl r, hflag⟩⟩
  · simp only [h, if_false]
    unfold insertProject
    cases nm with
    | none =>
        exact ⟨rfl, rfl, fun r' hr' =>
          ⟨fun g _ hflag => ⟨r', hr', sameNR_refl r', hflag⟩,
           fun hflag => Or.inl ⟨r', hr', sameNR_refl r', hflag⟩⟩⟩
    | some n =>
        cases ow with
        | none =>
            exact ⟨rfl, rfl, fun r' hr' =>
              ⟨fun g _ hflag => ⟨r', hr', sameNR_refl r', hflag⟩,
               fun hflag => Or.inl ⟨r', hr', sameNR_refl r', hflag⟩⟩⟩
        | some o =>
            refine ⟨rfl, rfl, ?_⟩
            intro r' hr'
            have hr2 : r' ∈ db.projects ∨ r' = newProjectRow db n o := by
              simpa using hr'
            cases hr2 with
            | inl hold =>
                exact ⟨fun g _ hflag => ⟨r', hold, sameNR_refl r', hflag⟩,
                  fun hflag => Or.inl ⟨r', hold, sameNR_refl r', hflag⟩⟩
            | inr hnew =>
                subst hnew
                constructor
                · intro g _ hflag
                  cases g <;> simp [flagGet, newProjectRow] at hflag
                · intro hflag
                  cases f <;> simp [flagGet, newProjectRow] at hflag

/-- Provenance of the flags of a row after a whole goThroughListOfRepos
walk: flags of the other kinds were inherited, and the flag of the
walked kind is inherited or justified by one of the two pairs the walk
read. -/
lemma goThroughListOfRepos_flags (db : DB) (repos : List (Option String))
    (f : TrendingFlag) :
    (goThroughListOfRepos db repos f).1.organizations = db.organizations ∧
    (goThroughListOfRepos db repos f).1.persons = db.persons ∧
    ∀ r' ∈ (goThroughListOfRepos db repos f).1.projects,
      (∀ g, g ≠ f → flagGet g r' = true →
        ∃ r ∈ db.projects, sameNR r r' ∧ flagGet g r = true) ∧
      (flagGet f r' = true →
        (∃ r ∈ db.projects, sameNR r r' ∧ flagGet f r = true) ∨
        processedFrom repos db.organizations db.persons r' = true) := by
  obtain ⟨o1, p1, h1⟩ := processPair_flags db (jsIdx repos 0) (jsIdx repos 1) f
  obtain ⟨o2, p2, h2⟩ :=
    processPair_flags (processPair db (jsIdx repos 0) (jsIdx repos 1) f).1
      (jsIdx repos 2) (jsIdx repos 3) f
  refine ⟨o2.trans o1, p2.trans p1, ?_⟩
  intro r' hr'
  obtain ⟨ha2, hb2⟩ := h2 r' hr'
  constructor
  · intro g hg hflag
    obtain ⟨r1, hr1, hnr1, hf1⟩ := ha2 g hg hflag
    obtain ⟨r, hrm, hnr, hf⟩ := (h1 r1 hr1).1 g hg hf1
    exact ⟨r, hrm, sameNR_trans hnr hnr1, hf⟩
  · intro hflag
    cases hb2 hflag with
    | inl hinh =>
        obtain ⟨r1, hr1, hnr1, hf1⟩ := hinh
        cases (h1 r1 hr1).2 hf1 with
        | inl hinh0 =>
            obtain ⟨r, hrm, hnr, hf⟩ := hinh0
            exact Or.inl ⟨r, hrm, sameNR_trans hnr hnr1, hf⟩
        | inr hmatch =>
            right
            simp only [Bool.and_eq_true] at hmatch
            obtain ⟨hm1, hm2⟩ := hmatch
            have hn : (jsIdx repos 1 == some r'.name) = true := by
              rw [hnr1.1] at hm1
              exact hm1
            have hl : jsEq (jsLinkedLogin db.organizations db.persons r')
                (jsIdx repos 0) = true := by
              rw [jsLinkedLogin_congr db.organizations db.persons hnr1] at hm2
              exact hm2
            unfold processedFrom
            simp only [List.any_eq_true]
            exact ⟨0, by simp, by simpa using And.intro hn hl⟩
    | inr hmatch =>
        right
        rw [o1, p1] at hmatch
        simp only [Bool.and_eq_true] at hmatch
        unfold processedFrom
        simp only [List.any_eq_true]
        exact ⟨1, by simp, by simpa using hmatch⟩

/-- Effect of purgeTrendingState: every surviving row has all three
trending flags false, and the other tables are untouched. -/
lemma purgeTrendingState_flags (db : DB) :
    (purgeTrendingState db).organizations = db.organizations ∧
    (purgeTrendingState db).persons = db.persons ∧
    ∀ r ∈ (purgeTrendingState db).projects,
      r.is_trending_daily = false ∧ r.is_trending_weekly = false ∧
        r.is_trending_monthly = false := by
  refine ⟨rfl, rfl, ?_⟩
  intro r hr
  simp only [purgeTrendingState, List.mem_map] at hr
  obtain ⟨r0, _, heq⟩ := hr
  subst heq
  exact ⟨rfl, rfl, rfl⟩

lemma mem_deleteOldProjects {db : DB} {isOld : ProjectRow → Bool} {r : ProjectRow}
    (h : r ∈ (deleteOldProjects db isOld).projects) : r ∈ db.projects := by
  unfold deleteOldProjects at h
  exact (List.mem_filter.mp h).1

/-- C6: dbUpdater purges every trending flag before walking the three
trending lists, so in the datastore it produces a trending flag is
true only on a row that matches one of the pairs that the walk of the
corresponding list processed during this run. -/
theorem dbUpdater_flag_only_if_processed (db0 : DB)
    (daily weekly monthly : List (Option String)) (isOld : ProjectRow → Bool) :
    ∀ r ∈ (dbUpdater db0 daily weekly monthly isOld).projects,
      (r.is_trending_daily = true →
        processedFrom daily db0.organizations db0.persons r = true) ∧
      (r.is_trending_weekly = true →
        processedFrom weekly db0.organizations db0.persons r = true) ∧
      (r.is_trending_monthly = true →
        processedFrom monthly db0.organizations db0.persons r = true) := by
  intro r hr
  unfold dbUpdater at hr
  have hr4 : r ∈ ((goThroughListOfRepos
      ((goThroughListOfRepos
        ((goThroughListOfRepos (purgeTrendingState db0) daily TrendingFlag.daily).1)
        weekly TrendingFlag.weekly).1)
      monthly TrendingFlag.monthly).1).projects := mem_deleteOldProjects hr
  set db1 := purgeTrendingState db0 with hdb1
  set db2 := (goThroughListOfRepos db1 daily TrendingFlag.daily).1 with hdb2
  set db3 := (goThroughListOfRepos db2 weekly TrendingFlag.weekly).1 with hdb3
  obtain ⟨to2, tp2, g2⟩ := goThroughListOfRepos_flags db1 daily TrendingFlag.daily
  obtain ⟨to3, tp3, g3⟩ := goThroughListOfRepos_flags db2 weekly TrendingFlag.weekly
  obtain ⟨to4, tp4, g4⟩ := goThroughListOfRepos_flags db3 monthly TrendingFlag.monthly
  obtain ⟨po, pp, pf⟩ := purgeTrendingState_flags db0
  have horg1 : db1.organizations = db0.organizations := po
  have hper1 : db1.persons = db0.persons := pp
  have horg2 : db2.organizations = db0.organizations := to2.trans horg1
  have hper2 : db2.persons = db0.persons := tp2.trans hper1
  have horg3 : db3.organizations = db0.organizations := to3.trans horg2
  have hper3 : db3.persons = db0.persons := tp3.trans hper2
  refine ⟨?_, ?_, ?_⟩
  · intro hd
    obtain ⟨r3, hr3, hnr34, hf3⟩ :=
      (g4 r hr4).1 TrendingFlag.daily (by decide) hd
    obtain ⟨r2, hr2, hnr23, hf2⟩ :=
      (g3 r3 hr3).1 TrendingFlag.daily (by decide) hf3
    cases (g2 r2 hr2).2 hf2 with
    | inl hinh =>
        obtain ⟨r1, hr1, _, hf1⟩ := hinh
        have hf1' : r1.is_trending_daily = true := hf1
        exact absurd ((pf r1 hr1).1.symm.trans hf1') (by decide)
    | inr hproc =>
        rw [horg1, hper1,
          processedFrom_congr daily db0.organizations db0.persons
            (sameNR_trans hnr23 hnr34)] at hproc
        exact hproc
  · intro hw
    obtain ⟨r3, hr3, hnr34, hf3⟩ :=
      (g4 r hr4).1 TrendingFlag.weekly (by decide) hw
    cases (g3 r3 hr3).2 hf3 with
    | inl hinh =>
        obtain ⟨r2, hr2, _, hf2⟩ := hinh
        obtain ⟨r1, hr1, _, hf1⟩ :=
          (g2 r2 hr2).1 TrendingFlag.weekly (by decide) hf2
        have hf1' : r1.is_trending_weekly = true := hf1
        exact absurd ((pf r1 hr1).2.1.symm.trans hf1') (by decide)
    | inr hproc =>
        rw [horg2, hper2,
          processedFrom_congr weekly db0.organizations db0.persons hnr34] at hproc
        exact hproc
  · intro hm
    cases (g4 r hr4).2 hm with
    | inl hinh =>
        obtain ⟨r3, hr3, _, hf3⟩ := hinh
        obtain ⟨r2, hr2, _, hf2⟩ :=
          (g3 r3 hr3).1 TrendingFlag.monthly (by decide) hf3
        obtain ⟨r1, hr1, _, hf1⟩ :=
          (g2 r2 hr2).1 TrendingFlag.monthly (by decide) hf2
        have hf1' : r1.is_trending_monthly = true := hf1
        exact absurd ((pf r1 hr1).2.2.symm.trans hf1') (by decide)
    | inr hproc =>
        rw [horg3, hper3] at hproc
        exact hproc

/-- Final row of the C6 witness run: the dbC2 repository with its
daily flag raised. -/
def rowC6 : ProjectRow :=
  { id := "p1", name := "repo", owning_organization := some "g1",
    owning_person := none, is_trending_daily := true,
    is_trending_weekly := false, is_trending_monthly := false,
    is_bookmarked := false, eli5 := none }

/-- C6 witness: running dbUpdater on dbC2 with a daily list holding its
repository, the theorem yields that the row carrying the daily flag
matches a processed pair of the daily list. -/
theorem dbUpdater_flag_only_if_processed_witness :
    processedFrom [some "acme", some "repo"] dbC2.organizations dbC2.persons rowC6 = true :=
  (dbUpdater_flag_only_if_processed dbC2 [some "acme", some "repo"] [] []
    (fun _ => false) rowC6 (by decide)).1 (by decide)

/-! ## Claim C5: getProjectID (dataAggregation.ts, lines 221-247) -/

/-- GitHub GraphQL API as seen by dataAggregation.ts: organization and
user lookups by login, each returning the entity data (restricted to
the login field, the only one the translated code reads) or null. -/
structure GitHubRemote where
  orgs : String → Option String
  users : String → Option String

/-- getOrganizationID translated from dataAggregation.ts, lines 87-151:
return the id of the first organization row with the given login when
that id is truthy; otherwise fetch the organization from GitHub,
return null when it does not exist, else insert a row for it (with a
fresh generated id) and re-select by login, returning the found id or
null. -/
def getOrganizationID (db : DB) (gh : GitHubRemote) (owner : String) :
    Option String × DB :=
  let found := ((db.organizations.filter (fun g => g.login == owner)).head?).map (·.id)
  if jsTruthy found then (found, db)
  else
    match gh.orgs owner with
    | none => (none, db)
    | some ghLogin =>
        let db' := { db with
          organizations := db.organizations ++ [{ id := toString db.nextId, login := ghLogin }]
          nextId := db.nextId + 1 }
        let found' := ((db'.organizations.filter (fun g => g.login == owner)).head?).map (·.id)
        if jsTruthy found' then (found', db') else (none, db')

/-- getPersonID translated from dataAggregation.ts, lines 159-213: the
associated_person analogue of getOrganizationID. -/
def getPersonID (db : DB) (gh : GitHubRemote) (owner : String) :
    Option String × DB :=
  let found := ((db.persons.filter (fun p => p.login == owner)).head?).map (·.id)
  if jsTruthy found then (found, db)
  else
    match gh.users owner with
    | none => (none, db)
    | some ghLogin =>
        let db' := { db with
          persons := db.persons ++ [{ id := toString db.nextId, login := ghLogin }]
          nextId := db.nextId + 1 }
        let found' := ((db'.persons.filter (fun p => p.login == owner)).head?).map (·.id)
        if jsTruthy found' then (found', db') else (none, db')

/-- Project search by owning organization and name, as performed by the
organization branch of getProjectID: id of the first matching row, or
null (the source `projects?.[0]?.id ?? null`). -/
def searchProjectByOrg (db : DB) (ownerID : Option String) (name : String) :
    Option String :=
  ((db.projects.filter (fun r =>
    r.owning_organization == ownerID && r.name == name)).head?).map (·.id)

/-- Project search by owning person and name, as performed by the
person branch of getProjectID. -/
def searchProjectByPerson (db : DB) (ownerID : Option String) (name : String) :
    Option String :=
  ((db.projects.filter (fun r =>
    r.owning_person == ownerID && r.name == name)).head?).map (·.id)

/-- getProjectID translated from dataAggregation.ts, lines 221-247. -/
def getProjectID (db : DB) (gh : GitHubRemote) (name owner : String) :
    Option String × DB :=
  match getOrganizationID db gh owner with
  | (o, db1) =>
      if jsTruthy o then (searchProjectByOrg db1 o name, db1)
      else
        match getPersonID db1 gh owner with
        | (p, db2) =>
            if jsTruthy p then (searchProjectByPerson db2 p name, db2)
            else (none, db2)

lemma optIsNone_map {α β : Type} (f : α → β) (x : Option α) :
    ((x.map f).isNone) = x.isNone := by
  cases x <;> rfl

lemma head_filter_isNone {α : Type} (l : List α) (p : α → Bool) :
    ((l.filter p).head?).isNone = l.all (fun a => !p a) := by
  induction l with
  | nil => rfl
  | cons a rest ih =>
      by_cases h : p a = true
      · simp [List.filter_cons, h]
      · simp only [Bool.not_eq_true] at h
        simp only [List.filter_cons, h, Bool.false_eq_true, if_false, List.all_cons,
          Bool.not_false, Bool.true_and]
        exact ih

/-- C5: getProjectID resolves the owner as an organization first and,
when that yields a truthy id, searches the project row by
owning_organization and name; otherwise it resolves the owner as a
person and searches by owning_person and name; when neither resolution
yields an id it returns null; and each search itself returns null
exactly when no project row matches the owner id and name. -/
theorem getProjectID_fallbacks (db : DB) (gh : GitHubRemote) (name owner : String) :
    (∀ o db1, getOrganizationID db gh owner = (o, db1) → jsTruthy o = true →
      getProjectID db gh name owner = (searchProjectByOrg db1 o name, db1)) ∧
    (∀ o db1 p db2, getOrganizationID db gh owner = (o, db1) → jsTruthy o = false →
      getPersonID db1 gh owner = (p, db2) → jsTruthy p = true →
      getProjectID db gh name owner = (searchProjectByPerson db2 p name, db2)) ∧
    (∀ o db1 p db2, getOrganizationID db gh owner = (o, db1) → jsTruthy o = false →
      getPersonID db1 gh owner = (p, db2) → jsTruthy p = false →
      getProjectID db gh name owner = (none, db2)) ∧
    (∀ oid, (searchProjectByOrg db oid name).isNone =
      db.projects.all (fun r => !(r.owning_organization == oid && r.name == name))) ∧
    (∀ pid, (searchProjectByPerson db pid name).isNone =
      db.projects.all (fun r => !(r.owning_person == pid && r.name == name))) := by
  refine ⟨?_, ?_, ?_, ?_, ?_⟩
  · intro o db1 h ht
    unfold getProjectID
    rw [h]
    dsimp only
    rw [ht]
    rfl
  · intro o db1 p db2 h ht hp hpt
    unfold getProjectID
    rw [h]
    dsimp only
    rw [ht, hp]
    dsimp only
    rw [hpt]
    rfl
  · intro o db1 p db2 h ht hp hpt
    unfold getProjectID
    rw [h]
    dsimp only
    rw [ht, hp]
    dsimp only
    rw [hpt]
    rfl
  · intro oid
    unfold searchProjectByOrg
    rw [optIsNone_map]
    exact head_filter_isNone db.projects _
  · intro pid
    unfold searchProjectByPerson
    rw [optIsNone_map]
    exact head_filter_isNone db.projects _

/-- GitHub remote knowing nothing, used by the C5 witness. -/
def ghEmpty : GitHubRemote := { orgs := fun _ => none, users := fun _ => none }

/-- C5 witness: on dbC2 the owner "acme" resolves as the organization
g1 and the project is found by owning_organization and name; on an
owner unknown to both the datastore and GitHub, both resolutions fail
and the result is null. -/
theorem getProjectID_fallbacks_witness :
    (getProjectID dbC2 ghEmpty "repo" "acme" =
      (searchProjectByOrg dbC2 (some "g1") "repo", dbC2)) ∧
    (getProjectID dbC2 ghEmpty "repo" "nobody" = (none, dbC2)) :=
  ⟨(getProjectID_fallbacks dbC2 ghEmpty "repo" "acme").1 (some "g1") dbC2
      (by decide) (by decide),
   (getProjectID_fallbacks dbC2 ghEmpty "repo" "nobody").2.2.1 none dbC2 none dbC2
      (by decide) (by decide) (by decide) (by decide)⟩

/-! ## Claim C4: fetchTrendingRepos (src/unnamed/part_002, lines 10-31)

The HTTP fetch and the cheerio selection of the h2 anchors are
modelled by the input list `scraped`: the text of each anchor on the
trending page, in page order.  The two regex replacements and the
split of the source are translated character by character. -/

/-- Character class \s of a JavaScript regex (the common members). -/
def isJsWhitespace (c : Char) : Bool :=
  c == ' ' || c == '\t' || c == '\n' || c == '\r' ||
    c == Char.ofNat 11 || c == Char.ofNat 12

/-- Global replacement of the regex \n\s+ by the empty string, written
as a scanner: at a newline followed by at least one whitespace
character the newline and the whole greedy whitespace run are dropped
(the skipping state consumes the run) and scanning resumes after the
match; any other character is kept. -/
def stripNLAux : Bool → List Char → List Char
  | _, [] => []
  | skipping, c :: cs =>
      if skipping && isJsWhitespace c then stripNLAux true cs
      else if c == '\n' && ((cs.head?.map isJsWhitespace).getD false) then
        stripNLAux true cs
      else c :: stripNLAux false cs

def stripNL (l : List Char) : List Char := stripNLAux false l

/-- Trimming done on each scraped anchor text: drop the \n\s+ runs,
then drop every slash. -/
def trimRepoName (repo : String) : String :=
  String.mk ((stripNL repo.data).filter (fun c => !(c == '/')))

/-- First component of the split of a trimmed anchor text (the owner);
`undefined` when the split has no such element. -/
def repoEntryOwner (repo : String) : Option String :=
  ((trimRepoName repo).splitOn " ").get? 0

/-- Second component of the split of a trimmed anchor text (the
repository name); `undefined` when the split has no such element. -/
def repoEntryName (repo : String) : Option String :=
  ((trimRepoName repo).splitOn " ").get? 1

/-- Pushes performed by one iteration of the forEach of
fetchTrendingRepos: stringSplit[0] then stringSplit[1]. -/
def parsePush (repo : String) : List (Option String) :=
  [repoEntryOwner repo, repoEntryName repo]

/-- fetchTrendingRepos translated from the scraper: walk the scraped
anchor texts in page order and push the two split components of each
one onto the result. -/
def fetchTrendingRepos (scraped : List String) : List (Option String) :=
  scraped.foldl (fun acc repo => acc ++ parsePush repo) []

lemma fetchTrendingRepos_go (l : List String) :
    ∀ acc : List (Option String),
      l.foldl (fun a repo => a ++ parsePush repo) acc =
        acc ++ l.foldl (fun a repo => a ++ parsePush repo) [] := by
  induction l with
  | nil => intro acc; simp
  | cons r rest ih =>
      intro acc
      simp only [List.foldl]
      rw [ih (acc ++ parsePush r), ih ([] ++ parsePush r)]
      simp [List.append_assoc]

lemma fetchTrendingRepos_cons (r : String) (rest : List String) :
    fetchTrendingRepos (r :: rest) = parsePush r ++ fetchTrendingRepos rest := by
  unfold fetchTrendingRepos
  simp only [List.foldl]
  rw [fetchTrendingRepos_go rest ([] ++ parsePush r)]
  simp

/-- C4: fetchTrendingRepos returns a flat array alternating owner and
repository name, pairs in page order: the result is twice as long as
the scraped list, the element at index 2i is the owner component of
the i-th scraped repository and the element at index 2i+1 is its name
component. -/
theorem fetchTrendingRepos_alternates (scraped : List String) :
    ((fetchTrendingRepos scraped).length = 2 * scraped.length) ∧
    (∀ i, (fetchTrendingRepos scraped).get? (2 * i) =
      (scraped.get? i).map repoEntryOwner) ∧
    (∀ i, (fetchTrendingRepos scraped).get? (2 * i + 1) =
      (scraped.get? i).map repoEntryName) := by
  induction scraped with
  | nil =>
      refine ⟨rfl, fun i => ?_, fun i => ?_⟩ <;> rfl
  | cons r rest ih =>
      rw [fetchTrendingRepos_cons]
      refine ⟨?_, fun i => ?_, fun i => ?_⟩
      · simp only [List.length_append, List.length_cons, ih.1, parsePush,
          List.length_cons, List.length_nil]
        omega
      · cases i with
        | zero => rfl
        | succ j =>
            rw [Nat.mul_succ]
            exact ih.2.1 j
      · cases i with
        | zero => rfl
        | succ j =>
            rw [Nat.mul_succ]
            exact ih.2.2 j

/-! ## Claim C3: getRepoFounders (src/unnamed/part_003, lines 147-205)

The GraphQL response of the history(first: 5) query is modelled by the
input list of commit authors (the user object of each response edge,
with its three nullable fields). -/

structure CommitAuthor where
  name : Option String
  login : Option String
  twitterUsername : Option String
deriving DecidableEq

structure ProjectFounder where
  name : String
  login : String
  twitterUsername : String
deriving DecidableEq

/-- Founder record pushed for a commit author: each nullable field is
defaulted to the empty string with ??. -/
def toFounder (u : CommitAuthor) : ProjectFounder :=
  { name := u.name.getD "", login := u.login.getD "",
    twitterUsername := u.twitterUsername.getD "" }

/-- Body of the forEach of getRepoFounders: push the defaulted record
unless some already-pushed founder's (defaulted) login strictly equals
the raw login of this author. -/
def foundersStep (acc : List ProjectFounder) (u : CommitAuthor) : List ProjectFounder :=
  if acc.any (fun c => jsEq (some c.login) u.login) then acc
  else acc ++ [toFounder u]

/-- getRepoFounders translated from the GitHub API module: throw when
owner or name is falsy, otherwise walk the response edges pushing
distinct committers. -/
def getRepoFounders (owner name : String) (edges : List CommitAuthor) :
    Except String (List ProjectFounder) :=
  if owner == "" || name == "" then
    Except.error "Not able to fetch repository to get founders of the project"
  else
    Except.ok (edges.foldl foundersStep [])

/-- Deduplication by login as the claim words it: one entry per
distinct login, keeping the first occurrence in commit order, fields
defaulted to the empty string. -/
def foundersSpecAux (seen : List (Option String)) :
    List CommitAuthor → List ProjectFounder
  | [] => []
  | u :: rest =>
      if seen.contains u.login then foundersSpecAux seen rest
      else toFounder u :: foundersSpecAux (u.login :: seen) rest

def foundersSpec (edges : List CommitAuthor) : List ProjectFounder :=
  foundersSpecAux [] edges

/-- C3 counterexample: with two commit authors whose login is missing,
getRepoFounders returns two founder entries both carrying the login ""
— not one entry per distinct login. -/
theorem getRepoFounders_duplicate_blank_logins :
    ((getRepoFounders "o" "n"
        [{ name := none, login := none, twitterUsername := none },
         { name := none, login := none, twitterUsername := none }]).map
      (fun l => l.map (fun c => c.login))) = Except.ok ["", ""] ∧
    ¬ (["", ""] : List String).Nodup := by
  exact ⟨rfl, by decide⟩

lemma beq_comm_str (a b : String) : (a == b) = (b == a) := by
  apply bool_eq_of_iff
  constructor
  · intro h
    exact beq_iff_eq.mpr (beq_iff_eq.mp h).symm
  · intro h
    exact beq_iff_eq.mpr (beq_iff_eq.mp h).symm

lemma contains_append_singleton {α : Type} [BEq α] (l : List α) (a x : α) :
    (l ++ [a]).contains x = (a :: l).contains x := by
  induction l with
  | nil => rfl
  | cons c cs ih =>
      simp only [List.cons_append, List.contains_cons] at *
      rw [ih]
      cases x == a <;> cases x == c <;> simp

lemma foundersSpecAux_congr (edges : List CommitAuthor) :
    ∀ seen1 seen2 : List (Option String),
      (∀ x, seen1.contains x = seen2.contains x) →
      foundersSpecAux seen1 edges = foundersSpecAux seen2 edges := by
  induction edges with
  | nil => intro _ _ _; rfl
  | cons u rest ih =>
      intro seen1 seen2 hs
      unfold foundersSpecAux
      rw [hs u.login]
      by_cases h : seen2.contains u.login = true
      · rw [h]
        simp only [if_true]
        exact ih seen1 seen2 hs
      · simp only [Bool.not_eq_true] at h
        rw [h]
        simp only [Bool.false_eq_true, if_false]
        refine congrArg _ (ih _ _ ?_)
        intro x
        simp only [List.contains_cons, hs x]

lemma foldl_foundersStep_eq_aux (edges : List CommitAuthor) :
    ∀ acc : List ProjectFounder,
      (∀ u ∈ edges, u.login.isSome = true) →
      edges.foldl foundersStep acc =
        acc ++ foundersSpecAux (acc.map (fun c => some c.login)) edges := by
  induction edges with
  | nil => intro acc _; simp [foundersSpecAux]
  | cons u rest ih =>
      intro acc h
      obtain ⟨l, hl⟩ := Option.isSome_iff_exists.mp (h u (by simp))
      have hrest : ∀ v ∈ rest, v.login.isSome = true := fun v hv => h v (by simp [hv])
      have hkey : (acc.map (fun c => some c.login)).contains u.login =
          acc.any (fun c => jsEq (some c.login) u.login) := by
        rw [hl]
        induction acc with
        | nil => rfl
        | cons c cs ihc =>
            simp only [List.map_cons, List.contains_cons, List.any_cons, ihc]
            have : (some l == some c.login) = jsEq (some c.login) (some l) := by
              show (l == c.login) = jsEq (some c.login) (some l)
              rw [beq_comm_str]
              rfl
            rw [this]
      simp only [List.foldl, foundersSpecAux]
      rw [hkey]
      by_cases hp : acc.any (fun c => jsEq (some c.login) u.login) = true
      · have hstep : foundersStep acc u = acc := by
          unfold foundersStep
          rw [hp]
          simp
        rw [hp, hstep]
        simp only [if_true]
        exact ih acc hrest
      · simp only [Bool.not_eq_true] at hp
        have hstep : foundersStep acc u = acc ++ [toFounder u] := by
          unfold foundersStep
          rw [hp]
          simp
        rw [hp, hstep]
        simp only [Bool.false_eq_true, if_false]
        rw [ih (acc ++ [toFounder u]) hrest]
        rw [List.append_assoc]
        refine congrArg _ (congrArg _ ?_)
        have hlog : (toFounder u).login = l := by
          unfold toFounder
          rw [hl]
          rfl
        refine foundersSpecAux_congr rest _ _ ?_
        intro x
        rw [List.map_append, List.map_cons, List.map_nil, hlog, hl]
        exact contains_append_singleton _ _ _

/-- C3 (amended): when every commit author of the response carries a
login, getRepoFounders deduplicates by login — one entry per distinct
login, keeping the first occurrence in commit order, missing name and
twitterUsername defaulted to the empty string — and it throws exactly
when owner or name is empty.  (Without that proviso the claim fails:
authors with a missing login are never matched by the strict
comparison against the stored login "", see the counterexample.) -/
theorem getRepoFounders_dedups_when_logins_present (owner name : String)
    (edges : List CommitAuthor)
    (h : ∀ u ∈ edges, u.login.isSome = true) :
    getRepoFounders owner name edges =
      if owner == "" || name == "" then
        Except.error "Not able to fetch repository to get founders of the project"
      else Except.ok (foundersSpec edges) := by
  unfold getRepoFounders foundersSpec
  by_cases he : (owner == "" || name == "") = true
  · rw [he]
    rfl
  · simp only [Bool.not_eq_true] at he
    rw [he]
    simp only [Bool.false_eq_true, if_false]
    refine congrArg _ ?_
    have := foldl_foundersStep_eq_aux edges [] h
    simpa using this

/-- C3 witness: three authors, the second repeating the first login,
processed through the amended theorem. -/
theorem getRepoFounders_dedups_witness :
    getRepoFounders "octo" "hello"
      [{ name := some "Bob", login := some "bob", twitterUsername := some "bobt" },
       { name := some "Robert", login := some "bob", twitterUsername := none },
       { name := none, login := some "alice", twitterUsername := none }] =
      Except.ok
        [{ name := "Bob", login := "bob", twitterUsername := "bobt" },
         { name := "", login := "alice", twitterUsername := "" }] := by
  rw [getRepoFounders_dedups_when_logins_present "octo" "hello" _ (by decide)]
  rfl

/-! ## Claim C9: fetchRepositoryReadme and updateProjectELI5

The axios fetch is the oracle `http` (the body of a successful GET, or
none when the request throws), the showdown markdown converter is the
oracle `makeHtml`, and the openAI summarisation (openAIApi.ts, not
under src/) is the oracle `getELI5FromReadMe`, which may throw. -/

/-- Candidate readme locations, in the order the source tries them. -/
def readmePaths (owner name : String) : List String :=
  ["https://raw.githubusercontent.com/" ++ owner ++ "/" ++ name ++ "/release/readme.md",
   "https://raw.githubusercontent.com/" ++ owner ++ "/" ++ name ++ "/dev/README.rst",
   "https://raw.githubusercontent.com/" ++ owner ++ "/" ++ name ++ "/main/README.md",
   "https://raw.githubusercontent.com/" ++ owner ++ "/" ++ name ++ "/master/README.md"]

/-- Global replacement of the regex <[^>]*> by the empty string,
written as a scanner: a run from < to the first > is dropped; a < that
is never closed matches nothing, so the buffered characters are kept
verbatim (no > occurs after them, hence no further match). -/
def stripTagsAux : Option (List Char) → List Char → List Char
  | none, [] => []
  | some buf, [] => buf.reverse
  | none, c :: cs =>
      if c == '<' then stripTagsAux (some [c]) cs
      else c :: stripTagsAux none cs
  | some buf, c :: cs =>
      if c == '>' then stripTagsAux none cs
      else stripTagsAux (some (c :: buf)) cs

def stripTags (l : List Char) : List Char := stripTagsAux none l

/-- Post-processing of the converted readme: strip the HTML tags, the
\n\s+ runs and the slashes. -/
def cleanReadme (html : String) : String :=
  String.mk ((stripNL (stripTags html.data)).filter (fun c => !(c == '/')))

/-- Loop of fetchRepositoryReadme: try each path, a thrown GET is
caught and the next path is tried; throw when the whole list is
exhausted. -/
def tryReadmePaths (http : String → Option String) (makeHtml : String → String) :
    List String → Except String String
  | [] => Except.error "ReadMe couldn't be found"
  | p :: rest =>
      match http p with
      | some body => Except.ok (cleanReadme (makeHtml body))
      | none => tryReadmePaths http makeHtml rest

/-- fetchRepositoryReadme translated from the scraper module. -/
def fetchRepositoryReadme (owner name : String) (http : String → Option String)
    (makeHtml : String → String) : Except String String :=
  tryReadmePaths http makeHtml (readmePaths owner name)

/-- JavaScript slice(0, n) on a string. -/
def jsSlice (s : String) (n : Nat) : String := String.mk (s.data.take n)

def fallbackEli5 : String := "ELI5/description could not be generated for this project"

/-- updateProjectELI5 translated from updateProject.ts, lines 61-73:
fetch and trim the readme, summarise it, and write the summary to the
eli5 column; any exception in that sequence is caught and the fallback
text is written instead. -/
def updateProjectELI5 (db : DB) (name owner : String)
    (http : String → Option String) (makeHtml : String → String)
    (getELI5FromReadMe : String → Except String String) : Except String DB :=
  match fetchRepositoryReadme owner name http makeHtml with
  | Except.error _ =>
      Except.ok (updateSupabaseProject db (some name) (some owner)
        (fun r => { r with eli5 := some fallbackEli5 })).2
  | Except.ok readMe =>
      match getELI5FromReadMe (jsSlice readMe 2500) with
      | Except.error _ =>
          Except.ok (updateSupabaseProject db (some name) (some owner)
            (fun r => { r with eli5 := some fallbackEli5 })).2
      | Except.ok description =>
          Except.ok (updateSupabaseProject db (some name) (some owner)
            (fun r => { r with eli5 := some description })).2

lemma tryReadmePaths_eq_findSome (http : String → Option String)
    (makeHtml : String → String) (paths : List String) :
    tryReadmePaths http makeHtml paths =
      match paths.findSome? http with
      | some body => Except.ok (cleanReadme (makeHtml body))
      | none => Except.error "ReadMe couldn't be found" := by
  induction paths with
  | nil => rfl
  | cons p rest ih =>
      unfold tryReadmePaths
      rw [List.findSome?_cons]
      cases http p with
      | none => exact ih
      | some body => rfl

/-- C9: updateProjectELI5 never propagates an exception;
fetchRepositoryReadme returns the converted-and-cleaned body of the
first of its four candidate URLs whose fetch succeeds and throws only
when all four fail; and when the readme fetch or the summary
generation fails, updateProjectELI5 writes the fallback text to the
eli5 column of the project instead of failing. -/
theorem updateProjectELI5_never_throws (db : DB) (name owner : String)
    (http : String → Option String) (makeHtml : String → String)
    (getELI5FromReadMe : String → Except String String) :
    ((updateProjectELI5 db name owner http makeHtml getELI5FromReadMe).isOk = true) ∧
    (fetchRepositoryReadme owner name http makeHtml =
      match (readmePaths owner name).findSome? http with
      | some body => Except.ok (cleanReadme (makeHtml body))
      | none => Except.error "ReadMe couldn't be found") ∧
    ((readmePaths owner name).findSome? http = none →
      updateProjectELI5 db name owner http makeHtml getELI5FromReadMe =
        Except.ok (updateSupabaseProject db (some name) (some owner)
          (fun r => { r with eli5 := some fallbackEli5 })).2) ∧
    (∀ body e, (readmePaths owner name).findSome? http = some body →
      getELI5FromReadMe (jsSlice (cleanReadme (makeHtml body)) 2500) = Except.error e →
      updateProjectELI5 db name owner http makeHtml getELI5FromReadMe =
        Except.ok (updateSupabaseProject db (some name) (some owner)
          (fun r => { r with eli5 := some fallbackEli5 })).2) := by
  have hfetch : fetchRepositoryReadme owner name http makeHtml =
      match (readmePaths owner name).findSome? http with
      | some body => Except.ok (cleanReadme (makeHtml body))
      | none => Except.error "ReadMe couldn't be found" :=
    tryReadmePaths_eq_findSome http makeHtml (readmePaths owner name)
  refine ⟨?_, hfetch, ?_, ?_⟩
  · unfold updateProjectELI5
    cases h1 : fetchRepositoryReadme owner name http makeHtml with
    | error e => rfl
    | ok body =>
        cases h2 : getELI5FromReadMe (jsSlice body 2500) with
        | error e =>
            dsimp only
            rw [h2]
            rfl
        | ok d =>
            dsimp only
            rw [h2]
            rfl
  · intro hnone
    rw [hnone] at hfetch
    unfold updateProjectELI5
    rw [hfetch]
  · intro body e hsome heli
    rw [hsome] at hfetch
    unfold updateProjectELI5
    rw [hfetch]
    dsimp only
    rw [heli]

/-- C9 witness: the theorem applied once with every fetch failing and
once with a succeeding fetch but a failing summarisation; both runs
end well with the fallback text written. -/
theorem updateProjectELI5_never_throws_witness :
    (updateProjectELI5 dbC2 "repo" "acme" (fun _ => none) (fun s => s)
        (fun _ => Except.ok "sum") =
      Except.ok (updateSupabaseProject dbC2 (some "repo") (some "acme")
        (fun r => { r with eli5 := some fallbackEli5 })).2) ∧
    (updateProjectELI5 dbC2 "repo" "acme" (fun _ => some "body") (fun s => s)
        (fun _ => Except.error "quota") =
      Except.ok (updateSupabaseProject dbC2 (some "repo") (some "acme")
        (fun r => { r with eli5 := some fallbackEli5 })).2) :=
  ⟨(updateProjectELI5_never_throws dbC2 "repo" "acme" (fun _ => none) (fun s => s)
      (fun _ => Except.ok "sum")).2.2.1 rfl,
   (updateProjectELI5_never_throws dbC2 "repo" "acme" (fun _ => some "body") (fun s => s)
      (fun _ => Except.error "quota")).2.2.2 "body" "quota" rfl rfl⟩

/-! ## Claim C10: bookmark mutations with no user in the context

graphql/resolvers.ts guards each bookmark mutation on context.user;
the context is modelled by the optional user id.  The supabaseUtils
bookmark helpers (a file of this repository that is not under src/)
are modelled from the spec over the bookmark table, and each resolver
also returns the list of datastore accesses it performed. -/

structure GqlResponse where
  message : Option String
  code : String
  hint : Option String
deriving DecidableEq

/-- BAD_USER_RESPONSE of graphql/commonResponses.ts. -/
def BAD_USER_RESPONSE : GqlResponse :=
  { message := some "The graphQL resolver did not receive a valid user."
    code := "400"
    hint := some "Are you loggedIn?" }

/-- BOOKMARK_DOES_NOT_EXIST_RESPONSE of graphql/commonResponses.ts. -/
def BOOKMARK_DOES_NOT_EXIST_RESPONSE : GqlResponse :=
  { message := some "This bookmark does not exist on the database."
    code := "409"
    hint := none }

structure BookmarkRow where
  userId : String
  projectId : String
  category : String
deriving DecidableEq

inductive DbAccess where
  | read
  | write
deriving DecidableEq

/-- Modelled from the spec: bookmarkIsAlreadyInDB (supabaseUtils.ts,
not under src/) — a bookmark is "a user-specific association between
an account and a project". -/
def bookmarkIsAlreadyInDB (store : List BookmarkRow) (userID projectID : String) : Bool :=
  store.any (fun b => b.userId == userID && b.projectId == projectID)

/-- Modelled from the spec: insertBookmark (supabaseUtils.ts, not
under src/) inserts the row and reports no error. -/
def insertBookmark (store : List BookmarkRow) (projectID userID category : String) :
    Option GqlResponse × List BookmarkRow :=
  (none, store ++ [{ userId := userID, projectId := projectID, category := category }])

/-- Modelled from the spec: deleteBookmark (supabaseUtils.ts, not
under src/) deletes the rows of the pair and reports no error. -/
def deleteBookmarkRows (store : List BookmarkRow) (userID projectID : String) :
    Option GqlResponse × List BookmarkRow :=
  (none, store.filter (fun b => !(b.userId == userID && b.projectId == projectID)))

/-- Modelled from the spec: editBookmarkCategory (supabaseUtils.ts,
not under src/) rewrites the category of the pair's rows. -/
def editBookmarkCategoryRows (store : List BookmarkRow)
    (userID projectID newCategory : String) :
    Option GqlResponse × List BookmarkRow :=
  (none, store.map (fun b =>
    if b.userId == userID && b.projectId == projectID then
      { b with category := newCategory } else b))

/-- Modelled from the spec: renameBookmarkCategory (supabaseUtils.ts,
not under src/) renames a category across the user's bookmarks. -/
def renameBookmarkCategoryRows (store : List BookmarkRow)
    (userID oldCategory newCategory : String) :
    Option GqlResponse × List BookmarkRow :=
  (none, store.map (fun b =>
    if b.userId == userID && b.category == oldCategory then
      { b with category := newCategory } else b))

/-- addBookmark translated from graphql/resolver/bookmark.ts. -/
def addBookmark (userID projectID category : String) (store : List BookmarkRow) :
    GqlResponse × List BookmarkRow × List DbAccess :=
  if bookmarkIsAlreadyInDB store userID projectID then
    ({ message := some "This bookmark is already in the database.",
       code := "409", hint := none }, store, [DbAccess.read])
  else
    match insertBookmark store projectID userID category with
    | (some err, store') => (err, store', [DbAccess.read, DbAccess.write])
    | (none, store') =>
        ({ message := none, code := "201", hint := none }, store',
          [DbAccess.read, DbAccess.write])

/-- addBookmark mutation of graphql/resolvers.ts: reject when the
context carries no user, before touching the datastore. -/
def addBookmarkResolver (ctxUser : Option String) (projectID category : String)
    (store : List BookmarkRow) : GqlResponse × List BookmarkRow × List DbAccess :=
  match ctxUser with
  | none => (BAD_USER_RESPONSE, store, [])
  | some userID => addBookmark userID projectID category store

/-- deleteBookmark mutation of graphql/resolvers.ts. -/
def deleteBookmarkResolver (ctxUser : Option String) (projectID : String)
    (store : List BookmarkRow) : GqlResponse × List BookmarkRow × List DbAccess :=
  match ctxUser with
  | none => (BAD_USER_RESPONSE, store, [])
  | some userID =>
      if !bookmarkIsAlreadyInDB store userID projectID then
        (BOOKMARK_DOES_NOT_EXIST_RESPONSE, store, [DbAccess.read])
      else
        match deleteBookmarkRows store userID projectID with
        | (some err, store') => (err, store', [DbAccess.read, DbAccess.write])
        | (none, store') =>
            ({ message := none, code := "204", hint := none }, store',
              [DbAccess.read, DbAccess.write])

/-- editBookmarkCategory mutation of graphql/resolvers.ts. -/
def editBookmarkCategoryResolver (ctxUser : Option String)
    (projectID newCategory : String) (store : List BookmarkRow) :
    GqlResponse × List BookmarkRow × List DbAccess :=
  match ctxUser with
  | none => (BAD_USER_RESPONSE, store, [])
  | some userID =>
      if !bookmarkIsAlreadyInDB store userID projectID then
        (BOOKMARK_DOES_NOT_EXIST_RESPONSE, store, [DbAccess.read])
      else
        match editBookmarkCategoryRows store userID projectID newCategory with
        | (some err, store') => (err, store', [DbAccess.read, DbAccess.write])
        | (none, store') =>
            ({ message := none, code := "204", hint := none }, store',
              [DbAccess.read, DbAccess.write])

/-- renameBookmarkCategory mutation of graphql/resolvers.ts (no
existence check in the source, see its Todo note). -/
def renameBookmarkCategoryResolver (ctxUser : Option String)
    (oldCategory newCategory : String) (store : List BookmarkRow) :
    GqlResponse × List BookmarkRow × List DbAccess :=
  match ctxUser with
  | none => (BAD_USER_RESPONSE, store, [])
  | some userID =>
      match renameBookmarkCategoryRows store userID oldCategory newCategory with
      | (some err, store') => (err, store', [DbAccess.write])
      | (none, store') =>
          ({ message := none, code := "204", hint := none }, store', [DbAccess.write])

/-- C10: each of the four bookmark mutations, on a request context with
no user, returns BAD_USER_RESPONSE (whose code is "400"), leaves the
bookmark table unchanged and performs no datastore access. -/
theorem bookmarkMutations_reject_missing_user (projectID category oldC newC : String)
    (store : List BookmarkRow) :
    (addBookmarkResolver none projectID category store = (BAD_USER_RESPONSE, store, [])) ∧
    (deleteBookmarkResolver none projectID store = (BAD_USER_RESPONSE, store, [])) ∧
    (editBookmarkCategoryResolver none projectID newC store =
      (BAD_USER_RESPONSE, store, [])) ∧
    (renameBookmarkCategoryResolver none oldC newC store =
      (BAD_USER_RESPONSE, store, [])) ∧
    BAD_USER_RESPONSE.code = "400" :=
  ⟨rfl, rfl, rfl, rfl, rfl⟩

end TruffleAI
